import Mathlib

/-!
Verification of the Causeway TRegex-based connective-matching stage.

The definitions below are a shallow embedding of
`src/causeway/tregex_based/tregex_stage.py` and
`src/causality_pipelines/candidate_filter_single_forest.py`.
Pure functions of the Python source become Lean functions; the mutable
Python dictionaries become insertion-ordered association lists; code that
can raise an uncaught exception returns `Except`.  External collaborators
(the nlpypline sentence model, the scipy Steiner-tree and longest-path
utilities, and the TRegex subprocess itself) are passed in as explicit
parameters, mirroring the spec's statement that they are out of scope.
-/

namespace Causeway

/-- A token of a parsed sentence: position index, lemma and generalized POS
category, following the spec's data model (identity is the index within the
sentence). -/
structure Token where
  index : Nat
  lemma' : String
  genPos : String
deriving DecidableEq, Repr

instance : Inhabited Token := ⟨⟨0, "", ""⟩⟩

/-- A gold-standard causation annotation attached to a sentence.  `cause` and
`effect` are optional (instances with a missing argument are filtered out by
the code before use); `none` models Python `None`. -/
structure CausationInstance where
  connective : List Token
  cause : Option (List Token)
  effect : Option (List Token)
deriving DecidableEq, Repr

/-- Modelled from the spec: the `PossibleCausation` (CausalRelationCandidate)
record lives in the external `causeway` package `__init__`, which is not part
of the sources; its fields follow the constructor call
`PossibleCausation(sentence, [pattern], connective, true_connectives.get(...),
[cause], [effect])` in `tregex_stage.py` and the data model of spec §3.  The
back-reference to the owning sentence is kept implicitly by the position of
the candidate in the per-sentence output list. -/
structure PossibleCausation where
  connective : List Token
  cause : List Token
  effect : List Token
  matching_patterns : List String
  true_causation_instance : Option CausationInstance
deriving DecidableEq, Repr

instance : Inhabited PossibleCausation := ⟨⟨[], [], [], [], none⟩⟩

/-- Python truthiness of an optional token list (`None` and `[]` are falsy). -/
def truthy : Option (List Token) → Bool
  | none => false
  | some l => !l.isEmpty

/-- One step of a stable insertion sort by a natural-number key: the new
element goes before the first strictly greater key, hence after all existing
equal keys (the stability contract of Python `list.sort`). -/
def insertSortedByKey {α : Type} (key : α → Nat) (x : α) : List α → List α
  | [] => [x]
  | y :: ys => if key x < key y then x :: y :: ys else y :: insertSortedByKey key x ys

/-- Stable sort by a natural-number key, modelling Python `list.sort(key=...)`.
Stable sorts agree on their output, so insertion sort is a faithful model of
CPython's timsort here. -/
def insertionSortByKey {α : Type} (key : α → Nat) (l : List α) : List α :=
  l.foldl (fun acc x => insertSortedByKey key x acc) []

/-!  ## Progress estimator (`_make_progress_reporter`, lines 777-802)  -/

/-- The completion fraction computed by one iteration of
`report_progress_loop`: `min(bytes_output / float(total_estimated_bytes),
0.99)`, with the `ZeroDivisionError` handler producing `0` when the estimated
total is zero.  Python floats are modelled by exact rationals; the claim-level
property (the min is bounded by its right argument, which is below 1) is
insensitive to rounding because `min` returns one of its arguments. -/
def report_progress_loop_step (bytes_output total_estimated_bytes : ℚ) : ℚ :=
  if total_estimated_bytes = 0 then 0
  else min (bytes_output / total_estimated_bytes) (99 / 100)

/-!  ## Worker-pool cache (`_create_output_file_if_not_exists`, `_run_tregex`,
lines 596-643)  -/

/-- External collaborators of one TRegex worker: Python's builtin `hash` on
strings, the `hash_file` utility of nlpypline (applied here to the serialized
tree contents that the temporary file holds), and the TRegex subprocess
itself, which per spec §5 is deterministic and side-effect-free: its stdout is
a function of the pattern, the requested capture labels and the input trees. -/
structure TregexEnv where
  pyHash : String → Int
  hash_file : String → String
  tregex_output : String → List String → String → String

/-- The cache-directory name derived from a pattern
(`_create_output_file_if_not_exists`, lines 619-627): `/` is replaced by `\`
(`pattern.replace('/', '\\')`, a per-character map for a one-character
needle), and names longer than 255 characters are truncated to 235 characters
and suffixed with the hash of the full name. -/
def pattern_dir_name (env : TregexEnv) (pattern : String) : String :=
  let name := String.mk (pattern.data.map (fun c => if c = '/' then '\\' else c))
  if 255 < name.length then (name.take 235) ++ toString (env.pyHash name) else name

/-- The on-disk cache: a map from (pattern directory name, input-file hash) to
the cached TRegex output, modelled as an association list. -/
abbrev Cache := List ((String × String) × String)

/-- Look a key up in the cache (the `open(cache_file_name, 'rb')` attempt). -/
def cacheLookup (cache : Cache) (key : String × String) : Option String :=
  (cache.find? (fun e => decide (e.1 = key))).map (·.2)

/-- `_create_output_file_if_not_exists` followed by reading the output file:
compute the cache key from the pattern and the hash of the tree file; if the
cache file exists, reuse its contents without running TRegex; otherwise run
TRegex (`_run_tregex`) with its stdout captured to the cache file and read it
back.  Returns (output contents, updated cache, whether a TRegex subprocess
was spawned). -/
def _create_output_file_if_not_exists (env : TregexEnv) (cache : Cache)
    (pattern : String) (connective_labels : List String)
    (tree_file_contents : String) : String × Cache × Bool :=
  let key := (pattern_dir_name env pattern, env.hash_file tree_file_contents)
  match cacheLookup cache key with
  | some contents => (contents, cache, false)
  | none =>
      let output := env.tregex_output pattern connective_labels tree_file_contents
      (output, cache ++ [(key, output)], true)

/-- One work item as seen by `_process_pattern`: the pattern, the capture
labels to print, and the serialized trees of its candidate sentences. -/
abbrev WorkItem := String × List String × String

/-- The scheduler run restricted to its caching behaviour: process the work
items in order, threading the on-disk cache through, and count the TRegex
subprocesses spawned.  Returns (per-item outputs, final cache, spawn count). -/
def runScheduler (env : TregexEnv) : Cache → List WorkItem →
    List String × Cache × Nat
  | cache, [] => ([], cache, 0)
  | cache, u :: rest =>
      let r := _create_output_file_if_not_exists env cache u.1 u.2.1 u.2.2
      let rec' := runScheduler env r.2.1 rest
      (r.1 :: rec'.1, rec'.2.1, rec'.2.2 + (if r.2.2 then 1 else 0))

/-- The cache key a work item maps to. -/
def workItemKey (env : TregexEnv) (u : WorkItem) : String × String :=
  (pattern_dir_name env u.1, env.hash_file u.2.2)

/-!  ## Cross-match deduplication (`TRegexConnectiveStage.__deduplicate`,
lines 820-833)  -/

/-- The grouping key of a candidate. -/
abbrev CausationKey := List Token × Token × Token

/-- Modelled from the spec: `get_causation_tuple` is imported from the
external `causeway` package `__init__`; per spec §4.3 the grouping key is
"the exact (connective-token-tuple, cause-token, effect-token)" triple. -/
def get_causation_tuple (connective : List Token) (cause effect : Token) :
    CausationKey :=
  (connective, cause, effect)

/-- The key under which `__deduplicate` groups a candidate:
`get_causation_tuple(pc.connective, pc.cause[0], pc.effect[0])`. -/
def pcTuple (pc : PossibleCausation) : CausationKey :=
  get_causation_tuple pc.connective pc.cause.headI pc.effect.headI

/-- The sort key applied at the end of `__deduplicate`:
`pc.connective[0].index`, the start position of the first connective token. -/
def pcStartIndex (pc : PossibleCausation) : Nat :=
  pc.connective.headI.index

/-- One iteration of the grouping loop of `__deduplicate`: if the candidate's
key is new, store the candidate; otherwise append the head of its pattern list
to the previously stored candidate's provenance
(`previous_pc.matching_patterns.append(pc.matching_patterns[0])`).  The Python
dict is modelled as an insertion-ordered association list (its `.values()`
order is unspecified in CPython 2, but every property proved below is
insensitive to that order because a deterministic sort follows). -/
def dedupInsert (m : List (CausationKey × PossibleCausation))
    (pc : PossibleCausation) : List (CausationKey × PossibleCausation) :=
  let pc_tuple := pcTuple pc
  match m.find? (fun e => decide (e.1 = pc_tuple)) with
  | none => m ++ [(pc_tuple, pc)]
  | some _ =>
      m.map (fun e =>
        if e.1 = pc_tuple then
          (e.1, { e.2 with matching_patterns :=
                    e.2.matching_patterns ++ [pc.matching_patterns.headI] })
        else e)

/-- The `pc_tuples_to_pcs` dict after the grouping loop of `__deduplicate`. -/
def dedupGroups (sentence_pcs : List PossibleCausation) :
    List (CausationKey × PossibleCausation) :=
  sentence_pcs.foldl dedupInsert []

/-- `__deduplicate`: group the sentence's raw candidates by their causation
tuple, merging pattern provenance, then sort the surviving candidates by the
index of their first connective token. -/
def __deduplicate (sentence_pcs : List PossibleCausation) :
    List PossibleCausation :=
  insertionSortByKey pcStartIndex ((dedupGroups sentence_pcs).map (·.2))

/-- The members of `l` that fall into the group with key `k`
(specification-side helper used to state theorems about `__deduplicate`). -/
def keyFilter (l : List PossibleCausation) (k : CausationKey) :
    List PossibleCausation :=
  l.filter (fun pc => decide (pcTuple pc = k))

/-- The candidate a group collapses to: the group's first member, its
provenance extended by the head pattern of each later member
(specification-side helper). -/
def collapseGroup : List PossibleCausation → Option PossibleCausation
  | [] => none
  | p :: rest =>
      some { p with matching_patterns :=
               p.matching_patterns ++ rest.map (·.matching_patterns.headI) }

/-- The distinct causation keys of `l` in order of first occurrence
(specification-side helper describing the model dict's key order). -/
def firstKeys (l : List PossibleCausation) : List CausationKey :=
  l.foldl (fun acc pc =>
    if acc.any (fun k => decide (k = pcTuple pc)) then acc
    else acc ++ [pcTuple pc]) []

/-- The candidate the group with key `k` collapses to (specification-side
helper; meaningful when the group is non-empty). -/
def groupValue (l : List PossibleCausation) (k : CausationKey) :
    PossibleCausation :=
  (collapseGroup (keyFilter l k)).getD default

/-!  ## Queueing and the worker loop (`test` lines 73-90,
`TregexProcessorThread.run` lines 568-594)  -/

/-- One entry of `self.tregex_patterns`:
(pattern string, connective capture labels, connective lemmas). -/
abbrev TregexPattern := String × List String × List String

/-- The sentence model consumed by this stage: tokens, the serialized tree
string (produced by the external sentence serializer), the gold causation
annotations, and the mutable `possible_causations` attribute this stage
populates. -/
structure Sentence where
  tokens : List Token
  ptb_string : String
  causation_instances : List CausationInstance
  possible_causations : List PossibleCausation
deriving DecidableEq, Repr

/-- `_filter_sentences_for_pattern` (lines 179-190): a sentence qualifies only
if every required connective lemma appears among its token lemmas. -/
def _filter_sentences_for_pattern (sentences : List Sentence)
    (pattern : String) (connective_lemmas : List String) : List Nat :=
  (sentences.enum).foldl (fun possible_sentence_indices is =>
    let token_lemmas := is.2.tokens.map (·.lemma')
    if connective_lemmas.all (fun cl => token_lemmas.contains cl) then
      possible_sentence_indices ++ [is.1]
    else possible_sentence_indices) []

/-- A queued work unit (`queue.put_nowait((pattern, connective_labels,
possible_sentence_indices, connective_lemmas))`). -/
structure WorkUnit where
  pattern : String
  connective_labels : List String
  possible_sentence_indices : List Nat
  connective_lemmas : List String
deriving DecidableEq, Repr

/-- The queue-filling loop of `test` (lines 75-87): one work unit is enqueued
for every stored pattern, whatever its candidate sentence subset. -/
def queueWorkUnits (tregex_patterns : List TregexPattern)
    (sentences : List Sentence) : List WorkUnit :=
  tregex_patterns.map (fun p =>
    ⟨p.1, p.2.1, _filter_sentences_for_pattern sentences p.1 p.2.2, p.2.2⟩)

/-- `TregexProcessorThread.run` (lines 568-594), sequentialized over the FIFO
queue (the queue hands each unit to exactly one worker; the order in which a
single worker would see them is the queue order).  A unit whose candidate
subset is empty is marked done and skipped without writing a tree file or
touching TRegex; otherwise `_process_pattern` runs for it.  Returns the
patterns for which `_process_pattern` (and hence possibly TRegex) runs, in
processing order. -/
def TregexProcessorThread_run : List WorkUnit → List String
  | [] => []
  | u :: rest =>
      if u.possible_sentence_indices.isEmpty then TregexProcessorThread_run rest
      else u.pattern :: TregexProcessorThread_run rest

/-!  ## Parsing TRegex output (`_process_tregex_for_sentence`,
`_get_dependency_token_from_tregex_line`, lines 672-763)  -/

/-- The exceptions the dependency-line parser can raise: `ValueError` from
`int(...)` on a non-integer trailing segment (or from tuple unpacking /
`list.index`), and `IndexError` from an out-of-range token subscript. -/
inductive TregexParseErr where
  | valueError (s : String)
  | indexError (i : Int)
deriving DecidableEq, Repr

/-- The numeric value of a run of decimal digits. -/
def digitsToNat (cs : List Char) : Nat :=
  cs.foldl (fun n c => n * 10 + (c.toNat - '0'.toNat)) 0

/-- Python `int(s)` on a string: surrounding whitespace is stripped, an
optional sign is allowed, and the rest must be a non-empty run of decimal
digits; anything else raises `ValueError` (modelled as `none`). -/
def pythonInt (s : String) : Option Int :=
  let t := ((s.data.dropWhile Char.isWhitespace).reverse.dropWhile
              Char.isWhitespace).reverse
  match t with
  | [] => none
  | c :: rest =>
      if c = '-' then
        if rest ≠ [] ∧ rest.all Char.isDigit then
          some (-(digitsToNat rest : Int))
        else none
      else if c = '+' then
        if rest ≠ [] ∧ rest.all Char.isDigit then
          some ((digitsToNat rest : Int))
        else none
      else if (c :: rest).all Char.isDigit then
        some ((digitsToNat (c :: rest) : Int))
      else none

/-- Python list subscription `l[i]`: negative indices count from the end;
an index outside `[-len, len)` raises `IndexError` (modelled as `none`). -/
def pythonListGet (tokens : List Token) (i : Int) : Option Token :=
  if i < 0 then
    if (-i).toNat ≤ tokens.length then tokens[tokens.length - (-i).toNat]?
    else none
  else tokens[i.toNat]?

/-- `line.split("_")[-1]`: the suffix of the line after its last underscore
(the whole line when it has none). -/
def lastSegmentAfterUnderscore (line : String) : String :=
  String.mk (((line.data.reverse).takeWhile (fun c => c ≠ '_')).reverse)

/-- `_get_dependency_token_from_tregex_line` (lines 683-686):
`int(line.split("_")[-1])` indexes into `sentence.tokens`; a non-integer
trailing segment or an out-of-range index raises. -/
def _get_dependency_token_from_tregex_line (line : String)
    (sentence_tokens : List Token) : Except TregexParseErr Token :=
  let trailing := lastSegmentAfterUnderscore line
  match pythonInt trailing with
  | none => .error (.valueError trailing)
  | some token_index =>
      match pythonListGet sentence_tokens token_index with
      | none => .error (.indexError token_index)
      | some t => .ok t

/-- Modelled from the spec: `igroup` comes from the external `nlpypline.util`;
per spec §4.3 the matcher output is consumed "in fixed-size batches of
(2 + connective-length) lines", an incomplete final batch "containing missing
entries" — i.e. padded with `None`.  Batch `i` holds positions
`i*n .. i*n+n-1` of the line list, out-of-range positions becoming `none`. -/
def igroup (l : List String) (n : Nat) : List (List (Option String)) :=
  (List.range ((l.length + n - 1) / n)).map (fun i =>
    (List.range n).map (fun j => l[i * n + j]?))

/-- The `true_connectives` dict of `_process_tregex_for_sentence`
(lines 700-704): pairwise gold instances keyed by their connective tuple. -/
def true_connectives (instances : List CausationInstance) :
    List (List Token × CausationInstance) :=
  (instances.filter (fun inst => truthy inst.cause && truthy inst.effect)).map
    (fun inst => (inst.connective, inst))

/-- `dict.get` on the comprehension-built dict: with duplicate keys the later
entry wins, so look from the end. -/
def tcGet (tc : List (List Token × CausationInstance)) (k : List Token) :
    Option CausationInstance :=
  ((tc.reverse).find? (fun e => decide (e.1 = k))).map (·.2)

/-- The body of the `for match_lines in igroup(lines, batch_size)` loop
(lines 712-753), dependency mode: a batch containing missing entries is
logged and skipped (`continue`); otherwise the first two lines give the cause
and effect tokens, the rest the connective tokens, the connective is re-sorted
into the canonical lemma order recorded at pattern-generation time, and a
`PossibleCausation` is appended.  Exceptions from token-reference parsing,
tuple unpacking, or `connective_lemmas.index` propagate. -/
def processMatchBatch (pattern : String) (connective_lemmas : List String)
    (sentence_tokens : List Token)
    (tc : List (List Token × CausationInstance))
    (acc : List PossibleCausation) (match_lines : List (Option String)) :
    Except TregexParseErr (List PossibleCausation) :=
  if match_lines.contains none then .ok acc
  else
    let ls := match_lines.filterMap id
    let arg_lines := ls.take 2
    let connective_lines := ls.drop 2
    do
      let args ← arg_lines.mapM
        (fun line => _get_dependency_token_from_tregex_line line sentence_tokens)
      let connective ← connective_lines.mapM
        (fun line => _get_dependency_token_from_tregex_line line sentence_tokens)
      match args with
      | [cause, effect] =>
          if connective.all (fun t => connective_lemmas.contains t.lemma') then
            let connective := insertionSortByKey
              (fun t => (connective_lemmas.findIdx?
                          (fun cl => decide (cl = t.lemma'))).getD 0)
              connective
            .ok (acc ++ [⟨connective, [cause], [effect], [pattern],
                          tcGet tc connective⟩])
          else .error (.valueError "x not in list")
      | _ => .error (.valueError "unpack")

/-- `_process_tregex_for_sentence` (lines 688-763), dependency mode, given the
stripped non-blank lines the file-reading loop collected for this sentence:
parse the matcher output in batches of `2 + len(connective_labels)` lines.
The result is the per-sentence candidate list, or the first uncaught
exception. -/
def _process_tregex_for_sentence (pattern : String)
    (connective_labels connective_lemmas : List String) (sentence : Sentence)
    (lines : List String) : Except TregexParseErr (List PossibleCausation) :=
  let tc := true_connectives sentence.causation_instances
  let batch_size := 2 + connective_labels.length
  (igroup lines batch_size).foldlM
    (processMatchBatch pattern connective_lemmas sentence.tokens tc) []

/-!  ## Overlap resolution (`PatternBasedFilterDecoder.decode`,
`candidate_filter_single_forest.py` lines 381-412)  -/

/-- The part record the decoder consumes: a candidate's connective tokens, the
patterns that produced it, and its cause/effect spans. -/
structure PatternFilterPart where
  connective : List Token
  connective_patterns : List String
  cause : List Token
  effect : List Token
deriving DecidableEq, Repr

/-- The positively-classified parts:
`[part for part, label in zip(classifier_parts, labels) if label]`. -/
def positiveParts (classifier_parts : List PatternFilterPart)
    (labels : List Bool) : List PatternFilterPart :=
  (classifier_parts.zip labels).filterMap
    (fun pl => if pl.2 then some pl.1 else none)

/-- `defaultdict(int)` increment, insertion-ordered association-list model. -/
def dictIncr (m : List (Token × Nat)) (t : Token) : List (Token × Nat) :=
  if m.any (fun e => decide (e.1 = t)) then
    m.map (fun e => if e.1 = t then (e.1, e.2 + 1) else e)
  else m ++ [(t, 1)]

/-- `defaultdict(int)` read (missing keys count as 0). -/
def countsGet (m : List (Token × Nat)) (t : Token) : Nat :=
  ((m.find? (fun e => decide (e.1 = t))).map (·.2)).getD 0

/-- The `tokens_to_parts` counting loop (lines 385-391): count every instance
each connective word is part of, over all positive parts. -/
def buildTokenCounts (positive_parts : List PatternFilterPart) :
    List (Token × Nat) :=
  positive_parts.foldl
    (fun m part => part.connective.foldl dictIncr m) []

/-- `needle` is a prefix of the second list. -/
def leadsWithChars : List Char → List Char → Bool
  | [], _ => true
  | _ :: _, [] => false
  | n :: ns, h :: hs => n = h && leadsWithChars ns hs

/-- Substring occurrence over character lists (Python `needle in haystack`). -/
def containsChars (needle : List Char) : List Char → Bool
  | [] => leadsWithChars needle []
  | h :: hs => leadsWithChars needle (h :: hs) || containsChars needle hs

/-- `'steiner_0' in pattern`: the pattern names a Steiner capture node (the
first Steiner capture is always numbered 0). -/
def containsSteiner0 (pattern : String) : Bool :=
  containsChars "steiner_0".data pattern.data

/-- The inner `for token in part.connective` loop of `decode` (lines 395-406)
with its `break`: the part is rejected as soon as some connective token is
shared (count > 1) and some producing pattern relies on a Steiner node. -/
def keepLoop (tokens_to_parts : List (Token × Nat))
    (connective_patterns : List String) : List Token → Bool
  | [] => true
  | token :: rest =>
      if 1 < countsGet tokens_to_parts token then
        if connective_patterns.any containsSteiner0 then false
        else keepLoop tokens_to_parts connective_patterns rest
      else keepLoop tokens_to_parts connective_patterns rest

/-- The `CausationInstance(sentence, connective=..., cause=..., effect=...)`
built for a kept part. -/
def mkCausationInstance (part : PatternFilterPart) : CausationInstance :=
  ⟨part.connective, some part.cause, some part.effect⟩

/-- `PatternBasedFilterDecoder.decode` (lines 382-412): keep the positive
parts that survive `keepLoop` and emit a `CausationInstance` for each. -/
def PatternBasedFilterDecoder_decode (classifier_parts : List PatternFilterPart)
    (labels : List Bool) : List CausationInstance :=
  let positive_parts := positiveParts classifier_parts labels
  let tokens_to_parts := buildTokenCounts positive_parts
  positive_parts.foldl
    (fun causation_instances part =>
      if keepLoop tokens_to_parts part.connective_patterns part.connective then
        causation_instances ++ [mkCausationInstance part]
      else causation_instances) []

/-- Specification-side count: how many times token `t` occurs across the
connectives of the positive parts (the mathematical value the `tokens_to_parts`
defaultdict computes). -/
def tokensToPartsSpec (positive_parts : List PatternFilterPart) (t : Token) :
    Nat :=
  (positive_parts.map (fun p => p.connective.count t)).sum

/-!  ## Pattern generation (`_generate_pattern_from_steiners` and its callers,
lines 196-544), dependency mode.  The configuration enum
`tregex_pattern_type` is fixed to its `'dependency'` value here; constituency
mode differs only in the per-node/per-edge string builders.  -/

/-- The configuration flags this stage reads (gflags definitions at the top of
the module; `tregex_max_steiners` defaults to 6). -/
structure Flags where
  tregex_max_steiners : Nat
  tregex_max_threads : Nat
deriving DecidableEq, Repr

/-- The default flag values (`DEFINE_integer('tregex_max_steiners', 6, ...)`,
`DEFINE_integer('tregex_max_threads', 30, ...)`). -/
def defaultFlags : Flags := ⟨6, 30⟩

/-- The sentence view used by dependency-mode pattern generation.  The graph
operations (`edge_labels`, the nonzero structure of `edge_graph`) and
`get_head` belong to the external nlpypline sentence model (spec §6) and are
therefore fields rather than embedded algorithms.  Edge weights are scipy
floats, modelled as exact rationals. -/
structure DepSentence where
  tokens : List Token
  edge_labels : Nat → Nat → String
  edge_graph_nnz : Nat → Nat → Bool
  get_head : List Token → Token
  original_text : String

/-- The Steiner subgraph returned by the external `steiner_tree` utility:
its weight matrix and the list of coordinates scipy's `.nonzero()` reports
(row-major over stored entries). -/
structure SteinerGraph where
  weight : Nat → Nat → ℚ
  nonzeroEdges : List (Nat × Nat)

/-- Python dict read for the `node_names` mapping. -/
def dictGet (m : List (Nat × String)) (k : Nat) : Option String :=
  (m.find? (fun e => decide (e.1 = k))).map (·.2)

/-- Python dict write for the `node_names` mapping (insertion-ordered model;
CPython 2 leaves `.values()` order unspecified). -/
def dictSet (m : List (Nat × String)) (k : Nat) (v : String) :
    List (Nat × String) :=
  if m.any (fun e => decide (e.1 = k)) then
    m.map (fun e => if e.1 = k then (e.1, v) else e)
  else m ++ [(k, v)]

/-- `_get_dep_node_pattern` (lines 196-227): name the node by its role
(`connective_N` / `steiner_N` / `cause` / `effect`), record the name in
`node_names`, and emit the TRegex node constraint. -/
def _get_dep_node_pattern (sentence : DepSentence) (node_index : Nat)
    (node_names : List (Nat × String)) (connective_indices : List Nat)
    (steiner_nodes : List Nat) (cause_head effect_head : Token) :
    String × List (Nat × String) :=
  let token := sentence.tokens.getD node_index default
  match connective_indices.findIdx? (fun i => decide (i = node_index)) with
  | some connective_index =>
      let node_name := "connective_" ++ toString connective_index
      ("/^" ++ token.lemma' ++ "_[0-9]+$/=" ++ node_name ++ " <2 /^"
         ++ token.genPos ++ ".*/",
       dictSet node_names node_index node_name)
  | none =>
      match steiner_nodes.findIdx? (fun i => decide (i = node_index)) with
      | some steiner_index =>
          let node_name := "steiner_" ++ toString steiner_index
          ("/.*_[0-9]+/=" ++ node_name, dictSet node_names node_index node_name)
      | none =>
          let node_name :=
            if token.index = effect_head.index then "effect" else "cause"
          ("/.*_[0-9]+/=" ++ node_name, dictSet node_names node_index node_name)

/-- `_get_dep_edge_pattern` (lines 229-240): the direction-aware label
constraint, with subject-variant aliases expanded into an alternation and a
`dep` fallback appended. -/
def _get_dep_edge_pattern (edge_start edge_end : Nat)
    (sentence : DepSentence) : String :=
  let edge_label := sentence.edge_labels edge_start edge_end
  let options :=
    if edge_label = "nsubj" ∨ edge_label = "csubj" then
      ["<1 nsubj", "<1 csubj"]
    else if edge_label = "nsubjpass" ∨ edge_label = "csubjpass" then
      ["<1 nsubjpass", "<1 csubjpass"]
    else ["<1 " ++ edge_label]
  let options := if edge_label ≠ "dep" then options ++ ["<1 dep"] else options
  "[" ++ String.intercalate " | " options ++ "]"

/-- `_add_dep_edge_to_pattern` (lines 242-268): extend the pattern with one
edge; opposing-arrow meeting points yield an independent `~`-anchored
fragment as second component (empty string when none). -/
def _add_dep_edge_to_pattern (sentence : DepSentence)
    (steiner_graph : SteinerGraph) (pattern node_pattern : String)
    (edge_start edge_end : Nat) (node_names : List (Nat × String)) :
    String × String :=
  let forward_weight := steiner_graph.weight edge_start edge_end
  let back_weight := steiner_graph.weight edge_end edge_start
  if back_weight < forward_weight then
    let edge_pattern := _get_dep_edge_pattern edge_start edge_end sentence
    (pattern ++ " < (" ++ node_pattern ++ " " ++ edge_pattern, "")
  else
    let edge_pattern := _get_dep_edge_pattern edge_end edge_start sentence
    if pattern.endsWith "]" then
      (pattern ++ " > (" ++ node_pattern,
       "~" ++ (dictGet node_names edge_end).getD "" ++ " " ++ edge_pattern)
    else
      (pattern ++ " " ++ edge_pattern ++ " > (" ++ node_pattern, "")

/-- `_generate_pattern_from_steiners` (lines 307-431), dependency mode.  The
external `longest_path_in_tree` utility (nlpypline.util.scipy) is passed in
as a function.  If the Steiner-node count exceeds `tregex_max_steiners` the
instance is abandoned with `(None, None)`; otherwise the longest path through
the Steiner tree is serialized (direction-normalized so the cause precedes the
effect), remaining Steiner edges are appended as conjunctive sub-patterns,
crossed-arrow fragments and argument/connective equality constraints are
added, and the cause≠effect exclusion closes the pattern. -/
def _generate_pattern_from_steiners (flags : Flags) (sentence : DepSentence)
    (steiner_graph : SteinerGraph) (steiner_nodes : List Nat)
    (connective_nodes : List Nat) (cause effect : Token)
    (longest_path_in_tree : SteinerGraph → Nat → List Nat)
    (path_seed_index : Nat) : Option String × Option (List String) :=
  if flags.tregex_max_steiners < steiner_nodes.length then (none, none)
  else
    let longest_path := longest_path_in_tree steiner_graph path_seed_index
    let longest_path :=
      match longest_path.findIdx? (fun i => decide (i = cause.index)),
            longest_path.findIdx? (fun i => decide (i = effect.index)) with
      | some cause_pos, some effect_pos =>
          if effect_pos < cause_pos then longest_path.reverse else longest_path
      | _, _ => longest_path
    let edges : List (Option Nat × Nat) :=
      (none, longest_path.headD 0) ::
        (longest_path.zip longest_path.tail).map (fun p => (some p.1, p.2))
    let step := fun (st : String × List (Nat × String) × List String)
                    (edge : Option Nat × Nat) =>
      let np := _get_dep_node_pattern sentence edge.2 st.2.1 connective_nodes
                  steiner_nodes cause effect
      match edge.1 with
      | some edge_start =>
          let pe := _add_dep_edge_to_pattern sentence steiner_graph st.1 np.1
                      edge_start edge.2 np.2
          (pe.1, np.2, if pe.2 ≠ "" then st.2.2 ++ [pe.2] else st.2.2)
      | none => ("(" ++ np.1, np.2, st.2.2)
    let built := edges.foldl step ("", [], [])
    let pattern := built.1 ++ String.mk (List.replicate edges.length ')')
    let get_named_node_pattern := fun (node : Nat)
                                      (node_names : List (Nat × String)) =>
      match dictGet node_names node with
      | some name => ("=" ++ name, node_names)
      | none =>
          let np := _get_dep_node_pattern sentence node node_names
                      connective_nodes steiner_nodes cause effect
          ("(" ++ np.1 ++ ")", np.2)
    let extraStep := fun (st : String × List (Nat × String) × List String)
                         (edge : Nat × Nat) =>
      if edges.contains (some edge.1, edge.2)
          ∨ edges.contains (some edge.2, edge.1) then st
      else
        let sp := get_named_node_pattern edge.1 st.2.1
        let ep := get_named_node_pattern edge.2 sp.2
        let pe := _add_dep_edge_to_pattern sentence steiner_graph sp.1 ep.1
                    edge.1 edge.2 ep.2
        (st.1 ++ " : (" ++ pe.1 ++ "))", ep.2,
         if pe.2 ≠ "" then st.2.2 ++ [pe.2] else st.2.2)
    let built := steiner_graph.nonzeroEdges.foldl extraStep
                   (pattern, built.2.1, built.2.2)
    let pattern := built.2.2.foldl
      (fun pattern pattern_frag => pattern ++ " : (" ++ pattern_frag ++ ")")
      built.1
    let node_names := built.2.1
    let node_names_to_print :=
      (node_names.map (·.2)).filter (·.startsWith "connective")
    let pattern := [(cause, "cause"), (effect, "effect")].foldl
      (fun pattern arg =>
        if connective_nodes.contains arg.1.index then
          pattern ++ " : (__=" ++ arg.2 ++ " == ="
            ++ (dictGet node_names arg.1.index).getD "" ++ ")"
        else pattern) pattern
    let pattern := pattern ++ " : (=effect !== =cause)"
    (some pattern, some node_names_to_print)

/-- `list(set(xs))` for the required-index set: duplicates eliminated.  CPython
2 leaves set order unspecified; the first-occurrence order is fixed here. -/
def pyListSet (l : List Nat) : List Nat :=
  l.foldl (fun acc x => if acc.contains x then acc else acc ++ [x]) []

/-- The required-node computation of `_get_dependency_pattern`
(lines 436-457): argument heads plus connective indices, deduplicated, minus
the nodes preprocessing pruned from the graph (no incident edge). -/
def _required_token_indices (sentence : DepSentence)
    (connective_indices : List Nat) (cause_head effect_head : Token) :
    List Nat :=
  (pyListSet ([cause_head.index, effect_head.index] ++ connective_indices)).filter
    (fun required_index =>
      (List.range sentence.tokens.length).any
          (fun j => sentence.edge_graph_nnz j required_index)
        || (List.range sentence.tokens.length).any
          (fun j => sentence.edge_graph_nnz required_index j))

/-- The external graph utilities `_get_dependency_pattern` consumes:
`steiner_tree` (given the sentence and the required nodes, the Steiner-node
list and subgraph) and `longest_path_in_tree`, both from nlpypline.util.scipy
(not part of the sources; spec §2 component 1). -/
structure PatternGenEnv where
  steiner_tree : DepSentence → List Nat → List Nat × SteinerGraph
  longest_path_in_tree : SteinerGraph → Nat → List Nat

/-- `_get_dependency_pattern` (lines 433-466): resolve argument heads, build
the pruned required-node set, run the Steiner-tree utility, and generate the
pattern seeded at the first connective index. -/
def _get_dependency_pattern (flags : Flags) (env : PatternGenEnv)
    (sentence : DepSentence)
    (connective_tokens cause_tokens effect_tokens : List Token) :
    Option String × Option (List String) :=
  let connective_indices := connective_tokens.map (·.index)
  let cause_head := sentence.get_head cause_tokens
  let effect_head := sentence.get_head effect_tokens
  let required_token_indices :=
    _required_token_indices sentence connective_indices cause_head effect_head
  let st := env.steiner_tree sentence required_token_indices
  let path_seed_index := connective_indices.headD 0
  _generate_pattern_from_steiners flags sentence st.2 st.1 connective_indices
    cause_head effect_head env.longest_path_in_tree path_seed_index

/-- `_get_pattern` (lines 499-506) in the dependency configuration. -/
def _get_pattern (flags : Flags) (env : PatternGenEnv) (sentence : DepSentence)
    (connective_tokens cause_tokens effect_tokens : List Token) :
    Option String × Option (List String) :=
  _get_dependency_pattern flags env sentence connective_tokens cause_tokens
    effect_tokens

/-- The per-instance body of the `_extract_patterns` loop (lines 521-540):
instances missing an argument are ignored; a `None` pattern (abandoned
generation) is skipped; an unseen pattern is recorded in `patterns_seen` and
appended to `tregex_patterns` together with its capture labels and connective
lemmas.  The state is `(patterns_seen, tregex_patterns)`. -/
def extract_step (flags : Flags) (env : PatternGenEnv) (sentence : DepSentence)
    (st : List String × List TregexPattern) (inst : CausationInstance) :
    List String × List TregexPattern :=
  if inst.cause.isSome && inst.effect.isSome then
    match _get_pattern flags env sentence inst.connective (inst.cause.getD [])
            (inst.effect.getD []) with
    | (none, _) => st
    | (some pattern, node_names) =>
        if st.1.contains pattern then st
        else (st.1 ++ [pattern],
              st.2 ++ [(pattern, node_names.getD [],
                        inst.connective.map (·.lemma'))])
  else st

/-- `_extract_patterns` (lines 508-544) over the preprocessed sentences, each
carrying its causation instances: fold `extract_step` over every instance of
every sentence and return the accumulated `tregex_patterns`. -/
def _extract_patterns (flags : Flags) (env : PatternGenEnv)
    (sentences : List (DepSentence × List CausationInstance)) :
    List TregexPattern :=
  (sentences.foldl (fun st sp => sp.2.foldl (extract_step flags env sp.1) st)
    ([], [])).2

/-!  ## Stage driver (`_preprocess_sentences` lines 121-177, `test`
lines 58-115, `_test_documents` lines 835-850)  -/

/-- `_preprocess_sentences` (lines 121-177): assign a fresh empty
`possible_causations` list to every input sentence and collect the serialized
tree strings (the TSurgeon normalization pass that subsequently rewrites those
strings is an external subprocess and does not touch the sentences).  Python
mutates the sentences in place; the model returns the updated sentences
alongside the strings. -/
def _preprocess_sentences (sentences : List Sentence) :
    List Sentence × List String :=
  (sentences.map (fun sentence => { sentence with possible_causations := [] }),
   sentences.map (fun sentence => sentence.ptb_string ++ "\n"))

/-- `TRegexConnectiveModel.test` (lines 58-115) restricted to its effect on
`predicted_outputs`: one empty output list is allocated per sentence before
any worker starts; for each queued pattern, each candidate sentence's list is
extended with the candidates that pattern produced there (the only mutation of
shared data, per the in-source thread-safety note).  What
`_process_tregex_for_sentence` yields depends on the external TRegex output,
so it is abstracted as `produce pattern sentence_index`. -/
def modelTest (produce : String → Nat → List PossibleCausation)
    (tregex_patterns : List TregexPattern) (sentences : List Sentence) :
    List (List PossibleCausation) :=
  tregex_patterns.foldl (fun predicted_outputs p =>
      let possible_sentence_indices :=
        _filter_sentences_for_pattern sentences p.1 p.2.2
      possible_sentence_indices.foldl
        (fun outs i => outs.set i ((outs.getD i []) ++ produce p.1 i))
        predicted_outputs)
    (List.replicate sentences.length [])

/-- `TRegexConnectiveStage._test_documents` (lines 835-850), flattened over
documents: preprocess the sentences, run the model, and replace each
sentence's `possible_causations` with the deduplicated output list for that
sentence (consumed pairwise via the iterator zip). -/
def _test_documents (produce : String → Nat → List PossibleCausation)
    (tregex_patterns : List TregexPattern) (sentences : List Sentence) :
    List Sentence :=
  let preprocessed := (_preprocess_sentences sentences).1
  let all_possible_causations := modelTest produce tregex_patterns preprocessed
  (preprocessed.zip all_possible_causations).map
    (fun sp => { sp.1 with possible_causations := __deduplicate sp.2 })

/-- Erase a sentence's `possible_causations` (specification-side helper for
stating that the stage's output is independent of candidates accumulated by
any earlier run). -/
def clearPC (sentence : Sentence) : Sentence :=
  { sentence with possible_causations := [] }

/-!  ## Helper lemmas  -/

theorem cacheLookup_nil (k : String × String) : cacheLookup [] k = none := rfl

theorem find?_append_of_some {α : Type} {p : α → Bool} {l₁ : List α} {a : α}
    (h : l₁.find? p = some a) (l₂ : List α) : (l₁ ++ l₂).find? p = some a := by
  induction l₁ with
  | nil => simp at h
  | cons x rest ih =>
    rw [List.cons_append]
    cases hx : p x with
    | true => rw [List.find?_cons_of_pos _ hx] at h ⊢; exact h
    | false => rw [List.find?_cons_of_neg _ (by simp [hx])] at h ⊢; exact ih h

theorem find?_append_of_none {α : Type} {p : α → Bool} {l₁ : List α}
    (h : l₁.find? p = none) (l₂ : List α) : (l₁ ++ l₂).find? p = l₂.find? p := by
  induction l₁ with
  | nil => simp
  | cons x rest ih =>
    rw [List.cons_append]
    cases hx : p x with
    | true => rw [List.find?_cons_of_pos _ hx] at h; exact absurd h (by simp)
    | false => rw [List.find?_cons_of_neg _ (by simp [hx])] at h ⊢; exact ih h

theorem cacheLookup_append_of_some {c : Cache} {k : String × String}
    {v : String} (h : cacheLookup c k = some v) (c₂ : Cache) :
    cacheLookup (c ++ c₂) k = some v := by
  unfold cacheLookup at h ⊢
  obtain ⟨e, he, hv⟩ := Option.map_eq_some'.mp h
  rw [find?_append_of_some he]
  simpa using hv

theorem cacheLookup_append_of_none {c : Cache} {k : String × String}
    (h : cacheLookup c k = none) (v : String) :
    cacheLookup (c ++ [(k, v)]) k = some v := by
  unfold cacheLookup at h ⊢
  have h' : c.find? (fun e => decide (e.1 = k)) = none := by
    cases hf : c.find? (fun e => decide (e.1 = k)) with
    | none => rfl
    | some a => rw [hf] at h; simp at h
  rw [find?_append_of_none h']
  simp [List.find?]

theorem create_of_hit (env : TregexEnv) (cache : Cache) (pattern : String)
    (labels : List String) (trees contents : String)
    (h : cacheLookup cache
          (pattern_dir_name env pattern, env.hash_file trees) = some contents) :
    _create_output_file_if_not_exists env cache pattern labels trees
      = (contents, cache, false) := by
  simp [_create_output_file_if_not_exists, h]

theorem create_of_miss (env : TregexEnv) (cache : Cache) (pattern : String)
    (labels : List String) (trees : String)
    (h : cacheLookup cache
          (pattern_dir_name env pattern, env.hash_file trees) = none) :
    _create_output_file_if_not_exists env cache pattern labels trees
      = (env.tregex_output pattern labels trees,
         cache ++ [((pattern_dir_name env pattern, env.hash_file trees),
                    env.tregex_output pattern labels trees)], true) := by
  simp [_create_output_file_if_not_exists, h]

theorem cacheLookup_after_create (env : TregexEnv) (cache : Cache)
    (pattern : String) (labels : List String) (trees : String) :
    cacheLookup
        (_create_output_file_if_not_exists env cache pattern labels trees).2.1
        (pattern_dir_name env pattern, env.hash_file trees)
      = some (_create_output_file_if_not_exists env cache pattern labels trees).1 := by
  cases h : cacheLookup cache (pattern_dir_name env pattern, env.hash_file trees) with
  | none => rw [create_of_miss env cache pattern labels trees h]
            exact cacheLookup_append_of_none h _
  | some contents => rw [create_of_hit env cache pattern labels trees contents h]
                     exact h

theorem create_cache_mono (env : TregexEnv) (cache : Cache) (pattern : String)
    (labels : List String) (trees : String) {k : String × String} {v : String}
    (h : cacheLookup cache k = some v) :
    cacheLookup
        (_create_output_file_if_not_exists env cache pattern labels trees).2.1 k
      = some v := by
  cases hl : cacheLookup cache (pattern_dir_name env pattern, env.hash_file trees) with
  | none => rw [create_of_miss env cache pattern labels trees hl]
            exact cacheLookup_append_of_some h _
  | some contents => rw [create_of_hit env cache pattern labels trees contents hl]
                     exact h

theorem runScheduler_cache_mono (env : TregexEnv) (units : List WorkItem) :
    ∀ (cache : Cache) (k : String × String) (v : String),
      cacheLookup cache k = some v →
      cacheLookup (runScheduler env cache units).2.1 k = some v := by
  induction units with
  | nil => intro cache k v h; exact h
  | cons u rest ih =>
    intro cache k v h
    simp only [runScheduler]
    exact ih _ k v (create_cache_mono env cache u.1 u.2.1 u.2.2 h)

theorem runScheduler_records_outputs (env : TregexEnv) (units : List WorkItem) :
    ∀ cache : Cache,
      List.Forall₂
        (fun u out =>
          cacheLookup (runScheduler env cache units).2.1 (workItemKey env u)
            = some out)
        units (runScheduler env cache units).1 := by
  induction units with
  | nil => intro cache; exact List.Forall₂.nil
  | cons u rest ih =>
    intro cache
    simp only [runScheduler]
    refine List.Forall₂.cons ?_ ?_
    · exact runScheduler_cache_mono env rest _ _ _
        (cacheLookup_after_create env cache u.1 u.2.1 u.2.2)
    · exact ih _

theorem runScheduler_all_cached (env : TregexEnv) (units : List WorkItem) :
    ∀ (cache : Cache) (outs : List String),
      List.Forall₂
        (fun u out => cacheLookup cache (workItemKey env u) = some out)
        units outs →
      runScheduler env cache units = (outs, cache, 0) := by
  induction units with
  | nil => intro cache outs h; cases h; rfl
  | cons u rest ih =>
    intro cache outs h
    cases h with
    | cons hu hrest =>
      simp only [runScheduler]
      rw [create_of_hit env cache u.1 u.2.1 u.2.2 _ hu, ih cache _ hrest]
      simp

/-!  ## Claim theorems  -/

/-- Claim C8: the progress reporter's completion fraction is
`min(observed_bytes / estimated_bytes, 0.99)` — `0` when the estimated total
is zero — hence it is always strictly below 1, so a running reporter never
reports 100% completion. -/
theorem progress_never_reports_completion
    (bytes_output total_estimated_bytes : ℚ) :
    report_progress_loop_step bytes_output 0 = 0
    ∧ report_progress_loop_step bytes_output total_estimated_bytes < 1 := by
  constructor
  · simp [report_progress_loop_step]
  · unfold report_progress_loop_step
    split
    · norm_num
    · calc min (bytes_output / total_estimated_bytes) (99 / 100)
            ≤ 99 / 100 := min_le_right _ _
        _ < 1 := by norm_num

/-- Claim C4: a worker checks the cache under the key derived from (pattern
text, hash of the serialized input): a hit is reused with no TRegex
invocation; a miss invokes TRegex, captures the output at the cache location
and reads it back.  Consequently a second scheduler run over identical
pattern+input work items reproduces the first run's outputs with zero TRegex
subprocesses spawned. -/
theorem tregex_cache_correctness (env : TregexEnv) (cache : Cache)
    (units : List WorkItem) :
    (∀ (pattern : String) (labels : List String) (trees contents : String),
        cacheLookup cache (pattern_dir_name env pattern, env.hash_file trees)
            = some contents →
        _create_output_file_if_not_exists env cache pattern labels trees
          = (contents, cache, false))
    ∧ (∀ (pattern : String) (labels : List String) (trees : String),
        cacheLookup cache (pattern_dir_name env pattern, env.hash_file trees)
            = none →
        _create_output_file_if_not_exists env cache pattern labels trees
          = (env.tregex_output pattern labels trees,
             cache ++ [((pattern_dir_name env pattern, env.hash_file trees),
                        env.tregex_output pattern labels trees)], true))
    ∧ runScheduler env (runScheduler env cache units).2.1 units
        = ((runScheduler env cache units).1,
           (runScheduler env cache units).2.1, 0) := by
  refine ⟨fun pattern labels trees contents h =>
            create_of_hit env cache pattern labels trees contents h,
          fun pattern labels trees h =>
            create_of_miss env cache pattern labels trees h,
          ?_⟩
  exact runScheduler_all_cached env units _ _
    (runScheduler_records_outputs env units cache)

/-- Claim C3, counterexample: the queue-filling loop of `test` enqueues a work
unit for every stored pattern, including one whose candidate sentence subset
is empty — here pattern `"patB"` requires lemma `"zzz"`, which no sentence
has, yet a work unit carrying the empty subset is enqueued for it, so
empty-subset patterns are not "skipped entirely" at dispatch time. -/
theorem work_unit_dispatch_counterexample :
    (queueWorkUnits
        [("patA", ["connective_0"], ["because"]),
         ("patB", ["connective_0"], ["zzz"])]
        [⟨[⟨0, "because", "I"⟩], "(ROOT)", [], []⟩]).map
      (fun u => (u.pattern, u.possible_sentence_indices))
      = [("patA", [0]), ("patB", [])] := by decide

/-- Claim C3, amended: one work unit is enqueued per stored pattern —
empty-subset patterns included; the worker loop discards units with an empty
candidate subset without invoking the TRegex pipeline, and runs
`_process_pattern` exactly once for each pattern whose candidate subset is
non-empty (no duplicates, no omissions). -/
theorem work_unit_dispatch (tregex_patterns : List TregexPattern)
    (sentences : List Sentence) :
    (queueWorkUnits tregex_patterns sentences).length = tregex_patterns.length
    ∧ TregexProcessorThread_run (queueWorkUnits tregex_patterns sentences)
        = (tregex_patterns.filter (fun p =>
            !(_filter_sentences_for_pattern sentences p.1 p.2.2).isEmpty)).map
            (·.1) := by
  constructor
  · simp [queueWorkUnits]
  · induction tregex_patterns with
    | nil => rfl
    | cons p ps ih =>
      simp only [queueWorkUnits, List.map_cons] at ih ⊢
      rw [List.filter_cons]
      cases h : (_filter_sentences_for_pattern sentences p.1 p.2.2).isEmpty
      · simpa [TregexProcessorThread_run, h] using ih
      · simpa [TregexProcessorThread_run, h] using ih

/-- Claim C1: when the Steiner tree for a training instance has more Steiner
nodes than `tregex_max_steiners` allows, pattern generation is abandoned with
the pair `(None, None)` and the `_extract_patterns` loop leaves its state
untouched: no pattern (hence later no work unit) is recorded for the
instance. -/
theorem max_steiners_abandons_pattern (flags : Flags) (env : PatternGenEnv)
    (sentence : DepSentence) (st : List String × List TregexPattern)
    (inst : CausationInstance)
    (h : flags.tregex_max_steiners <
          ((env.steiner_tree sentence
              (_required_token_indices sentence
                (inst.connective.map (·.index))
                (sentence.get_head (inst.cause.getD []))
                (sentence.get_head (inst.effect.getD [])))).1).length) :
    _get_pattern flags env sentence inst.connective (inst.cause.getD [])
        (inst.effect.getD []) = (none, none)
    ∧ extract_step flags env sentence st inst = st := by
  have hp : _get_pattern flags env sentence inst.connective
      (inst.cause.getD []) (inst.effect.getD []) = (none, none) := by
    unfold _get_pattern _get_dependency_pattern _generate_pattern_from_steiners
    simp only [if_pos h]
  refine ⟨hp, ?_⟩
  unfold extract_step
  cases hc : inst.cause.isSome && inst.effect.isSome
  · simp [hc]
  · simp [hc, hp]

/-- Concrete Steiner-tree oracle for the C1 witness: the external
`steiner_tree` utility reports 8 Steiner nodes. -/
def wPatternGenEnv : PatternGenEnv :=
  ⟨fun _ _ => ([0, 1, 2, 3, 4, 5, 6, 7], ⟨fun _ _ => 0, []⟩), fun _ _ => []⟩

/-- Concrete sentence for the C1 witness. -/
def wDepSentence : DepSentence :=
  ⟨[⟨0, "cause", "V"⟩], fun _ _ => "", fun _ _ => true, fun ts => ts.headI,
   "Smoking causes cancer"⟩

/-- Concrete annotated instance for the C1 witness. -/
def wInstance : CausationInstance :=
  ⟨[⟨0, "cause", "V"⟩], some [⟨0, "cause", "V"⟩], some [⟨0, "cause", "V"⟩]⟩

/-- Witness for C1: an instance whose Steiner tree requires 8 Steiner nodes
under the default maximum of 6 yields `(None, None)` and is skipped by the
extraction loop starting from the empty state. -/
theorem max_steiners_abandons_pattern_witness :
    _get_pattern defaultFlags wPatternGenEnv wDepSentence wInstance.connective
        (wInstance.cause.getD []) (wInstance.effect.getD []) = (none, none)
    ∧ extract_step defaultFlags wPatternGenEnv wDepSentence ([], []) wInstance
        = ([], []) :=
  max_steiners_abandons_pattern defaultFlags wPatternGenEnv wDepSentence
    ([], []) wInstance (by decide)

/-- Witness for C4 at a concrete cache hit: with the key
`("p", "trees")` already cached as `"out"`, the worker reuses the cached
contents and spawns no subprocess. -/
theorem tregex_cache_correctness_witness :
    _create_output_file_if_not_exists
        ⟨fun _ => 0, fun s => s, fun p _ t => p ++ t⟩
        [(("p", "trees"), "out")] "p" ["connective_0"] "trees"
      = ("out", [(("p", "trees"), "out")], false) :=
  (tregex_cache_correctness ⟨fun _ => 0, fun s => s, fun p _ t => p ++ t⟩
      [(("p", "trees"), "out")] []).1 "p" ["connective_0"] "trees" "out"
    (by decide)

theorem find?_map_pres {α : Type} {p : α → Bool} {f : α → α}
    (hf : ∀ e, p (f e) = p e) (l : List α) :
    (l.map f).find? p = (l.find? p).map f := by
  induction l with
  | nil => rfl
  | cons x rest ih =>
    cases hx : p x with
    | true =>
        rw [List.map_cons, List.find?_cons_of_pos _ (by rw [hf]; exact hx),
            List.find?_cons_of_pos _ hx]
        rfl
    | false =>
        rw [List.map_cons, List.find?_cons_of_neg _ (by simp [hf, hx]),
            List.find?_cons_of_neg _ (by simp [hx])]
        exact ih

theorem countsGet_dictIncr (m : List (Token × Nat)) (t t' : Token) :
    countsGet (dictIncr m t) t' = countsGet m t' + (if t' = t then 1 else 0) := by
  unfold dictIncr
  split
  case isTrue hAny =>
    unfold countsGet
    rw [find?_map_pres (f := fun e => if e.1 = t then (e.1, e.2 + 1) else e)
          (by intro e; by_cases he : e.1 = t <;> simp [he])]
    cases hf : m.find? (fun e => decide (e.1 = t')) with
    | none =>
        by_cases ht : t' = t
        · exfalso
          obtain ⟨e, hmem, hpe⟩ := List.any_eq_true.mp hAny
          have hs : (m.find? (fun e => decide (e.1 = t'))).isSome :=
            List.find?_isSome.mpr ⟨e, hmem, by simpa [ht] using hpe⟩
          rw [hf] at hs
          simp at hs
        · simp [ht]
    | some a =>
        have hpa : a.1 = t' := by simpa using List.find?_some hf
        by_cases ht : t' = t
        · simp [hpa, ht]
        · have hne : ¬a.1 = t := by rw [hpa]; exact ht
          simp [hne, ht]
  case isFalse hAny =>
    have hnone : m.find? (fun e => decide (e.1 = t)) = none := by
      cases hf : m.find? (fun e => decide (e.1 = t)) with
      | none => rfl
      | some a =>
          exact absurd (List.any_eq_true.mpr
            ⟨a, List.mem_of_find?_eq_some hf, List.find?_some hf⟩) hAny
    unfold countsGet
    by_cases ht : t' = t
    · subst ht
      rw [find?_append_of_none hnone, hnone]
      simp [List.find?]
    · cases hf : m.find? (fun e => decide (e.1 = t')) with
      | none =>
          rw [find?_append_of_none hf]
          simp [List.find?, Ne.symm ht, ht]
      | some a => rw [find?_append_of_some hf]; simp [ht]

theorem countsGet_foldl_tokens (toks : List Token) :
    ∀ (m : List (Token × Nat)) (t : Token),
      countsGet (toks.foldl dictIncr m) t = countsGet m t + toks.count t := by
  induction toks with
  | nil => intro m t; simp
  | cons x rest ih =>
      intro m t
      rw [List.foldl_cons, ih, countsGet_dictIncr, List.count_cons]
      simp only [beq_iff_eq]
      by_cases ht : t = x
      · simp only [if_pos ht, if_pos ht.symm]; omega
      · simp only [if_neg ht, if_neg (show ¬(x = t) from fun h => ht h.symm)]; omega

theorem buildTokenCounts_spec (parts : List PatternFilterPart) (t : Token) :
    countsGet (buildTokenCounts parts) t = tokensToPartsSpec parts t := by
  suffices h : ∀ m : List (Token × Nat),
      countsGet (parts.foldl (fun m part => part.connective.foldl dictIncr m) m) t
        = countsGet m t + tokensToPartsSpec parts t by
    simpa [buildTokenCounts, countsGet] using h []
  induction parts with
  | nil => intro m; simp [tokensToPartsSpec]
  | cons p rest ih =>
      intro m
      rw [List.foldl_cons, ih, countsGet_foldl_tokens]
      simp [tokensToPartsSpec]
      omega

theorem keepLoop_eq (counts : List (Token × Nat)) (pats : List String)
    (toks : List Token) :
    keepLoop counts pats toks
      = !(toks.any (fun t => decide (1 < countsGet counts t))
          && pats.any containsSteiner0) := by
  induction toks with
  | nil => simp [keepLoop]
  | cons x rest ih =>
      unfold keepLoop
      by_cases hx : 1 < countsGet counts x
      · cases hp : pats.any containsSteiner0
        · simp [hx, hp, ih]
        · simp [hx, hp]
      · simp [hx, ih]

theorem foldl_keep_filter {α β : Type} (keep : α → Bool) (mk : α → β)
    (ps : List α) :
    ∀ acc : List β,
      ps.foldl (fun acc part => if keep part then acc ++ [mk part] else acc) acc
        = acc ++ (ps.filter keep).map mk := by
  induction ps with
  | nil => intro acc; simp
  | cons p rest ih =>
      intro acc
      rw [List.foldl_cons, List.filter_cons]
      cases hk : keep p
      · rw [if_neg (by simp), if_neg (by simp)]
        exact ih acc
      · rw [if_pos rfl, if_pos rfl]
        rw [List.map_cons, ih (acc ++ [mk p]), List.append_assoc]
        rfl

/-- Claim C5, counterexample: two positively-classified candidates whose
connectives share the token and whose patterns both rely on a Steiner capture
node are BOTH dropped by `decode`, even though neither conflicts with any kept
candidate and neither conflicts with a non-Steiner candidate; the claim's
reading "shares a token with at least one other kept candidate" and
"deprioritized relative to one that is not" therefore fails on this input
(`decode` would have to keep at least one of them). -/
theorem decode_steiner_counterexample :
    PatternBasedFilterDecoder_decode
        [⟨[⟨1, "because", "I"⟩], ["x=steiner_0 y"], [⟨0, "a", "N"⟩],
          [⟨2, "b", "N"⟩]⟩,
         ⟨[⟨1, "because", "I"⟩], ["z=steiner_0 w"], [⟨2, "b", "N"⟩],
          [⟨0, "a", "N"⟩]⟩]
        [true, true] = [] := by decide

/-- Claim C5, amended: a positively-classified candidate is dropped by
`decode` exactly when some token of its connective occurs more than once
across the connectives of ALL positively-classified candidates (kept or not)
AND one of its producing patterns names a Steiner capture node; in particular
a candidate with no Steiner-derived pattern is always kept, and so is any
candidate whose connective shares no token with another positive candidate. -/
theorem decode_steiner_deprioritization
    (classifier_parts : List PatternFilterPart) (labels : List Bool) :
    PatternBasedFilterDecoder_decode classifier_parts labels
      = ((positiveParts classifier_parts labels).filter (fun part =>
          !(part.connective.any (fun t =>
              decide (1 < tokensToPartsSpec
                        (positiveParts classifier_parts labels) t))
            && part.connective_patterns.any containsSteiner0))).map
          mkCausationInstance := by
  unfold PatternBasedFilterDecoder_decode
  rw [foldl_keep_filter]
  rw [List.nil_append]
  congr 1
  apply List.filter_congr
  intro part _
  rw [keepLoop_eq]
  simp only [buildTokenCounts_spec]

theorem insertSortedByKey_perm {α : Type} (key : α → Nat) (x : α)
    (l : List α) : List.Perm (insertSortedByKey key x l) (x :: l) := by
  induction l with
  | nil => exact List.Perm.refl _
  | cons y ys ih =>
    unfold insertSortedByKey
    by_cases h : key x < key y
    · rw [if_pos h]
    · rw [if_neg h]
      exact List.Perm.trans (List.Perm.cons y ih) (List.Perm.swap x y ys)

theorem insertionSortByKey_perm {α : Type} (key : α → Nat) (l : List α) :
    List.Perm (insertionSortByKey key l) l := by
  suffices hgen : ∀ acc : List α,
      List.Perm (l.foldl (fun acc x => insertSortedByKey key x acc) acc)
        (acc ++ l) by
    simpa [insertionSortByKey] using hgen []
  induction l with
  | nil => intro acc; simp
  | cons x xs ih =>
    intro acc
    rw [List.foldl_cons]
    exact List.Perm.trans (ih _)
      (List.Perm.trans
        ((insertSortedByKey_perm key x acc).append_right xs)
        List.perm_middle.symm)

theorem pairwise_insertSortedByKey {α : Type} (key : α → Nat) (x : α)
    {l : List α} (h : l.Pairwise (fun a b => key a ≤ key b)) :
    (insertSortedByKey key x l).Pairwise (fun a b => key a ≤ key b) := by
  induction l with
  | nil => simp [insertSortedByKey]
  | cons y ys ih =>
    rw [List.pairwise_cons] at h
    obtain ⟨hy, hys⟩ := h
    unfold insertSortedByKey
    by_cases hxy : key x < key y
    · rw [if_pos hxy, List.pairwise_cons]
      refine ⟨?_, List.pairwise_cons.mpr ⟨hy, hys⟩⟩
      intro b hb
      rcases List.mem_cons.mp hb with hb | hb
      · exact le_of_lt (hb ▸ hxy)
      · exact le_trans (le_of_lt hxy) (hy b hb)
    · rw [if_neg hxy, List.pairwise_cons]
      refine ⟨?_, ih hys⟩
      intro b hb
      have hb' : b ∈ x :: ys := (insertSortedByKey_perm key x ys).subset hb
      rcases List.mem_cons.mp hb' with hb' | hb'
      · exact hb' ▸ not_lt.mp hxy
      · exact hy b hb'

theorem pairwise_insertionSortByKey {α : Type} (key : α → Nat) (l : List α) :
    (insertionSortByKey key l).Pairwise (fun a b => key a ≤ key b) := by
  suffices hgen : ∀ acc : List α, acc.Pairwise (fun a b => key a ≤ key b) →
      (l.foldl (fun acc x => insertSortedByKey key x acc) acc).Pairwise
        (fun a b => key a ≤ key b) from hgen [] List.Pairwise.nil
  induction l with
  | nil => intro acc h; exact h
  | cons x xs ih =>
    intro acc h
    rw [List.foldl_cons]
    exact ih _ (pairwise_insertSortedByKey key x h)

theorem insertSortedByKey_append {α : Type} (key : α → Nat) (x : α)
    {l : List α} (h : ∀ y ∈ l, key y ≤ key x) :
    insertSortedByKey key x l = l ++ [x] := by
  induction l with
  | nil => rfl
  | cons y ys ih =>
    unfold insertSortedByKey
    rw [if_neg (not_lt.mpr (h y (List.mem_cons_self y ys)))]
    rw [ih (fun z hz => h z (List.mem_cons_of_mem _ hz))]
    rfl

theorem insertionSortByKey_of_sorted {α : Type} (key : α → Nat) {l : List α}
    (h : l.Pairwise (fun a b => key a ≤ key b)) :
    insertionSortByKey key l = l := by
  suffices hgen : ∀ acc : List α,
      (acc ++ l).Pairwise (fun a b => key a ≤ key b) →
      l.foldl (fun acc x => insertSortedByKey key x acc) acc = acc ++ l by
    simpa [insertionSortByKey] using hgen [] (by simpa using h)
  clear h
  induction l with
  | nil => intro acc _; simp
  | cons x xs ih =>
    intro acc hp
    rw [List.foldl_cons]
    have hax : ∀ y ∈ acc, key y ≤ key x := by
      intro y hy
      exact (List.pairwise_append.mp hp).2.2 y hy x (List.mem_cons_self x xs)
    rw [insertSortedByKey_append key x hax,
        ih (acc ++ [x]) (by simpa using hp)]
    simp

theorem any_key_eq_mem (ks : List CausationKey) (k : CausationKey) :
    ks.any (fun x => decide (x = k)) = true ↔ k ∈ ks := by
  rw [List.any_eq_true]
  constructor
  · rintro ⟨x, hx, he⟩
    have : x = k := by simpa using he
    exact this ▸ hx
  · intro h; exact ⟨k, h, by simp⟩

theorem find?_key_eq_of_mem {ks : List CausationKey} {k : CausationKey}
    (h : k ∈ ks) : ks.find? (fun x => decide (x = k)) = some k := by
  induction ks with
  | nil => simp at h
  | cons x rest ih =>
    by_cases hx : x = k
    · subst hx; rw [List.find?_cons_of_pos _ (by simp)]
    · rw [List.find?_cons_of_neg _ (by simp [hx])]
      rcases List.mem_cons.mp h with h' | h'
      · exact absurd h'.symm hx
      · exact ih h'

theorem firstKeysStep_mem (acc : List CausationKey) (pc : PossibleCausation)
    (k : CausationKey) :
    (k ∈ if acc.any (fun k' => decide (k' = pcTuple pc)) then acc
         else acc ++ [pcTuple pc])
      ↔ k ∈ acc ∨ k = pcTuple pc := by
  split
  case isTrue h =>
    constructor
    · exact Or.inl
    · rintro (hk | hk)
      · exact hk
      · exact hk ▸ (any_key_eq_mem acc (pcTuple pc)).mp h
  case isFalse h => simp

theorem mem_firstKeys {l : List PossibleCausation} {k : CausationKey} :
    k ∈ firstKeys l ↔ ∃ pc ∈ l, pcTuple pc = k := by
  suffices hgen : ∀ acc : List CausationKey,
      k ∈ l.foldl (fun acc pc =>
          if acc.any (fun k' => decide (k' = pcTuple pc)) then acc
          else acc ++ [pcTuple pc]) acc
        ↔ k ∈ acc ∨ ∃ pc ∈ l, pcTuple pc = k by
    simpa [firstKeys] using hgen []
  induction l with
  | nil => intro acc; simp
  | cons pc rest ih =>
    intro acc
    rw [List.foldl_cons, ih, firstKeysStep_mem, List.exists_mem_cons_iff]
    constructor
    · rintro ((h | h) | h)
      · exact Or.inl h
      · exact Or.inr (Or.inl h.symm)
      · exact Or.inr (Or.inr h)
    · rintro (h | h | h)
      · exact Or.inl (Or.inl h)
      · exact Or.inl (Or.inr h.symm)
      · exact Or.inr h

theorem nodup_firstKeys (l : List PossibleCausation) : (firstKeys l).Nodup := by
  suffices hgen : ∀ acc : List CausationKey, acc.Nodup →
      (l.foldl (fun acc pc =>
          if acc.any (fun k' => decide (k' = pcTuple pc)) then acc
          else acc ++ [pcTuple pc]) acc).Nodup from hgen [] List.nodup_nil
  induction l with
  | nil => intro acc h; exact h
  | cons pc rest ih =>
    intro acc h
    rw [List.foldl_cons]
    apply ih
    split
    case isTrue => exact h
    case isFalse hAny =>
      have hnot : pcTuple pc ∉ acc := by
        intro hmem
        exact hAny ((any_key_eq_mem acc (pcTuple pc)).mpr hmem)
      simp [List.nodup_append, h, hnot]

theorem firstKeys_append (l : List PossibleCausation)
    (pc : PossibleCausation) :
    firstKeys (l ++ [pc])
      = if (firstKeys l).any (fun k' => decide (k' = pcTuple pc))
        then firstKeys l else firstKeys l ++ [pcTuple pc] := by
  unfold firstKeys
  rw [List.foldl_append]
  rfl

theorem keyFilter_append (l : List PossibleCausation) (pc : PossibleCausation)
    (k : CausationKey) :
    keyFilter (l ++ [pc]) k
      = keyFilter l k ++ (if pcTuple pc = k then [pc] else []) := by
  unfold keyFilter
  rw [List.filter_append]
  congr 1
  by_cases h : pcTuple pc = k <;> simp [h]

theorem keyFilter_eq_nil_iff {l : List PossibleCausation} {k : CausationKey} :
    keyFilter l k = [] ↔ ∀ pc ∈ l, pcTuple pc ≠ k := by
  unfold keyFilter
  rw [List.filter_eq_nil_iff]
  simp

theorem collapseGroup_append {g : List PossibleCausation}
    (pc : PossibleCausation) (h : g ≠ []) :
    collapseGroup (g ++ [pc])
      = (collapseGroup g).map (fun v =>
          { v with matching_patterns :=
              v.matching_patterns ++ [pc.matching_patterns.headI] }) := by
  cases g with
  | nil => exact absurd rfl h
  | cons p rest => simp [collapseGroup, List.append_assoc]

theorem dedupGroups_append (l : List PossibleCausation)
    (pc : PossibleCausation) :
    dedupGroups (l ++ [pc]) = dedupInsert (dedupGroups l) pc := by
  unfold dedupGroups
  rw [List.foldl_append]
  rfl

theorem pcTuple_collapse (p : PossibleCausation)
    (rest : List PossibleCausation) (v : PossibleCausation)
    (h : collapseGroup (p :: rest) = some v) : pcTuple v = pcTuple p := by
  simp only [collapseGroup, Option.some.injEq] at h
  subst h
  rfl

/-- The dict built by the grouping loop of `__deduplicate`, characterized:
its keys are the distinct causation tuples of the input in first-occurrence
order, and its value at key `k` is the collapse of the group with key `k`. -/
theorem dedupGroups_char (l : List PossibleCausation) :
    dedupGroups l = (firstKeys l).map (fun k => (k, groupValue l k)) := by
  induction l using List.reverseRecOn with
  | nil => rfl
  | append_singleton l pc ih =>
    rw [dedupGroups_append, ih]
    by_cases hmem : pcTuple pc ∈ firstKeys l
    · have hfind : ((firstKeys l).map (fun k => (k, groupValue l k))).find?
          (fun e => decide (e.1 = pcTuple pc))
          = some (pcTuple pc, groupValue l (pcTuple pc)) := by
        rw [List.find?_map]
        rw [show ((fun e : CausationKey × PossibleCausation =>
              decide (e.1 = pcTuple pc)) ∘ (fun k => (k, groupValue l k)))
            = (fun k => decide (k = pcTuple pc)) from rfl]
        rw [find?_key_eq_of_mem hmem]
        rfl
      rw [firstKeys_append, if_pos ((any_key_eq_mem _ _).mpr hmem)]
      simp only [dedupInsert, hfind, List.map_map]
      apply List.map_congr_left
      intro k hk
      show (if k = pcTuple pc
            then (k, { groupValue l k with matching_patterns :=
                   (groupValue l k).matching_patterns
                     ++ [pc.matching_patterns.headI] })
            else (k, groupValue l k))
          = (k, groupValue (l ++ [pc]) k)
      by_cases hkk : k = pcTuple pc
      · rw [if_pos hkk]
        have hne : keyFilter l k ≠ [] := by
          rw [Ne, keyFilter_eq_nil_iff]
          push_neg
          obtain ⟨q, hq, hqt⟩ := mem_firstKeys.mp hmem
          exact ⟨q, hq, by rw [hqt, hkk]⟩
        obtain ⟨p, rest, hg⟩ : ∃ p rest, keyFilter l k = p :: rest := by
          cases hg : keyFilter l k with
          | nil => exact absurd hg hne
          | cons p rest => exact ⟨p, rest, rfl⟩
        have hcol : collapseGroup (keyFilter l k)
            = some { p with matching_patterns :=
                p.matching_patterns
                  ++ rest.map (·.matching_patterns.headI) } := by
          rw [hg]; rfl
        have hval : groupValue (l ++ [pc]) k
            = { groupValue l k with matching_patterns :=
                  (groupValue l k).matching_patterns
                    ++ [pc.matching_patterns.headI] } := by
          unfold groupValue
          rw [keyFilter_append, if_pos hkk.symm,
              collapseGroup_append pc hne, hcol]
          rfl
        rw [hval]
      · rw [if_neg hkk]
        have hval : groupValue (l ++ [pc]) k = groupValue l k := by
          unfold groupValue
          rw [keyFilter_append, if_neg (fun h => hkk h.symm)]
          simp
        rw [hval]
    · have hfind : ((firstKeys l).map (fun k => (k, groupValue l k))).find?
          (fun e => decide (e.1 = pcTuple pc)) = none := by
        rw [List.find?_map]
        rw [show ((fun e : CausationKey × PossibleCausation =>
              decide (e.1 = pcTuple pc)) ∘ (fun k => (k, groupValue l k)))
            = (fun k => decide (k = pcTuple pc)) from rfl]
        rw [List.find?_eq_none.mpr (fun x hx => by
          simp only [decide_eq_true_eq]
          intro hxk
          exact hmem (hxk ▸ hx))]
        rfl
      rw [firstKeys_append,
          if_neg (fun h => hmem ((any_key_eq_mem _ _).mp h))]
      simp only [dedupInsert, hfind, List.map_append]
      congr 1
      · apply List.map_congr_left
        intro k hk
        have hkk : pcTuple pc ≠ k := fun h => hmem (h ▸ hk)
        have hval : groupValue (l ++ [pc]) k = groupValue l k := by
          unfold groupValue
          rw [keyFilter_append, if_neg hkk]
          simp
        rw [hval]
      · have hnil : keyFilter l (pcTuple pc) = [] :=
          keyFilter_eq_nil_iff.mpr
            (fun q hq hqk => hmem (mem_firstKeys.mpr ⟨q, hq, hqk⟩))
        simp only [List.map_cons, List.map_nil]
        have hval : groupValue (l ++ [pc]) (pcTuple pc) = pc := by
          unfold groupValue
          rw [keyFilter_append, if_pos rfl, hnil]
          simp [collapseGroup]
        rw [hval]

theorem groupValue_key {l : List PossibleCausation} {k : CausationKey}
    (h : k ∈ firstKeys l) : pcTuple (groupValue l k) = k := by
  obtain ⟨q, hq, hqt⟩ := mem_firstKeys.mp h
  have hne : keyFilter l k ≠ [] := by
    rw [Ne, keyFilter_eq_nil_iff]
    push_neg
    exact ⟨q, hq, hqt⟩
  cases hg : keyFilter l k with
  | nil => exact absurd hg hne
  | cons p rest =>
    have hp : p ∈ keyFilter l k := by rw [hg]; exact List.mem_cons_self p rest
    have hpk : pcTuple p = k := by
      have := (List.mem_filter.mp hp).2
      simpa using this
    have hval : groupValue l k
        = { p with matching_patterns :=
              p.matching_patterns
                ++ rest.map (fun x => x.matching_patterns.headI) } := by
      unfold groupValue
      rw [hg]
      rfl
    rw [hval]
    exact hpk

theorem groupValue_patterns {l : List PossibleCausation} {k : CausationKey}
    (h : ∀ pc ∈ l, pc.matching_patterns.length = 1) (hk : k ∈ firstKeys l) :
    (groupValue l k).matching_patterns
      = (keyFilter l k).map (·.matching_patterns.headI) := by
  obtain ⟨q, hq, hqt⟩ := mem_firstKeys.mp hk
  have hne : keyFilter l k ≠ [] := by
    rw [Ne, keyFilter_eq_nil_iff]
    push_neg
    exact ⟨q, hq, hqt⟩
  cases hg : keyFilter l k with
  | nil => exact absurd hg hne
  | cons p rest =>
    have hp : p ∈ keyFilter l k := by rw [hg]; exact List.mem_cons_self p rest
    have hval : groupValue l k
        = { p with matching_patterns :=
              p.matching_patterns
                ++ rest.map (fun x => x.matching_patterns.headI) } := by
      unfold groupValue
      rw [hg]
      rfl
    have hp1 : p.matching_patterns.length = 1 :=
      h p (List.mem_of_mem_filter hp)
    have hsing : p.matching_patterns = [p.matching_patterns.headI] := by
      cases hmp : p.matching_patterns with
      | nil => rw [hmp] at hp1; simp at hp1
      | cons a rest' =>
        cases rest' with
        | nil => simp [hmp]
        | cons b rest'' => rw [hmp] at hp1; simp at hp1
    rw [hval]
    show p.matching_patterns ++ rest.map (·.matching_patterns.headI)
      = (p :: rest).map (·.matching_patterns.headI)
    rw [List.map_cons, hsing]
    rfl

theorem dedup_perm_groupValues (l : List PossibleCausation) :
    List.Perm (__deduplicate l)
      ((firstKeys l).map (fun k => groupValue l k)) := by
  unfold __deduplicate
  rw [dedupGroups_char, List.map_map]
  exact insertionSortByKey_perm _ _

theorem countP_key_of_nodup_mem {ks : List CausationKey} {k : CausationKey}
    (hnd : ks.Nodup) (h : k ∈ ks) :
    ks.countP (fun x => decide (x = k)) = 1 := by
  induction ks with
  | nil => simp at h
  | cons x rest ih =>
    rw [List.countP_cons]
    rcases List.mem_cons.mp h with h' | h'
    · subst h'
      have hx : k ∉ rest := (List.nodup_cons.mp hnd).1
      have hz : rest.countP (fun y => decide (y = k)) = 0 :=
        List.countP_eq_zero.mpr (fun a ha => by
          simp only [decide_eq_true_eq]
          intro hak
          exact hx (hak ▸ ha))
      simp [hz]
    · have hne : ¬x = k := fun he =>
        (List.nodup_cons.mp hnd).1 (he ▸ h')
      rw [ih (List.nodup_cons.mp hnd).2 h']
      simp [hne]

/-- Claim C2: per-sentence cross-match deduplication groups raw candidates
(each carrying a single matching pattern) by their exact
(connective, cause, effect) key, collapses each non-empty group into exactly
one candidate whose provenance lists the group's patterns, and returns a list
sorted by the index of the first connective token; in particular two patterns
matching the same triple collapse into one candidate of provenance size 2. -/
theorem tregex_dedup_cross_match (l : List PossibleCausation)
    (h : ∀ pc ∈ l, pc.matching_patterns.length = 1) :
    (∀ k : CausationKey,
        (__deduplicate l).countP (fun pc => decide (pcTuple pc = k))
          = min (l.countP (fun pc => decide (pcTuple pc = k))) 1)
    ∧ (∀ pc ∈ __deduplicate l,
        pc.matching_patterns
          = (keyFilter l (pcTuple pc)).map (·.matching_patterns.headI))
    ∧ (__deduplicate l).Pairwise
        (fun a b => pcStartIndex a ≤ pcStartIndex b) := by
  have hperm := dedup_perm_groupValues l
  refine ⟨?_, ?_, ?_⟩
  · intro k
    rw [hperm.countP_eq, List.countP_map]
    have hcnt : (firstKeys l).countP ((fun pc => decide (pcTuple pc = k))
          ∘ (fun k' => groupValue l k'))
        = (firstKeys l).countP (fun k' => decide (k' = k)) := by
      apply List.countP_congr
      intro k' hk'
      simp only [Function.comp]
      rw [groupValue_key hk']
    rw [hcnt]
    by_cases hk : k ∈ firstKeys l
    · rw [countP_key_of_nodup_mem (nodup_firstKeys l) hk]
      have hpos : 0 < l.countP (fun pc => decide (pcTuple pc = k)) :=
        List.countP_pos_iff.mpr (by
          obtain ⟨pc, hpc, ht⟩ := mem_firstKeys.mp hk
          exact ⟨pc, hpc, by simp [ht]⟩)
      omega
    · have h1 : (firstKeys l).countP (fun k' => decide (k' = k)) = 0 :=
        List.countP_eq_zero.mpr (fun a ha => by
          simp only [decide_eq_true_eq]
          intro hak
          exact hk (hak ▸ ha))
      have h2 : l.countP (fun pc => decide (pcTuple pc = k)) = 0 :=
        List.countP_eq_zero.mpr (fun pc hpc => by
          simp only [decide_eq_true_eq]
          intro ht
          exact hk (mem_firstKeys.mpr ⟨pc, hpc, ht⟩))
      rw [h1, h2]
      simp
  · intro pc hpc
    have hmem : pc ∈ (firstKeys l).map (fun k => groupValue l k) :=
      hperm.subset hpc
    obtain ⟨k, hk, hpc'⟩ := List.mem_map.mp hmem
    subst hpc'
    rw [groupValue_key hk]
    exact groupValue_patterns h hk
  · unfold __deduplicate
    exact pairwise_insertionSortByKey _ _

/-- Witness for C2: two raw candidates produced by patterns `"pat1"` and
`"pat2"` on the same (connective, cause, effect) triple collapse into exactly
one final candidate for that key. -/
theorem tregex_dedup_cross_match_witness :
    (__deduplicate
        [⟨[⟨1, "cause", "V"⟩], [⟨0, "smoking", "N"⟩], [⟨2, "cancer", "N"⟩],
          ["pat1"], none⟩,
         ⟨[⟨1, "cause", "V"⟩], [⟨0, "smoking", "N"⟩], [⟨2, "cancer", "N"⟩],
          ["pat2"], none⟩]).countP
      (fun pc => decide (pcTuple pc
        = ([⟨1, "cause", "V"⟩], ⟨0, "smoking", "N"⟩, ⟨2, "cancer", "N"⟩)))
      = min
        (([⟨[⟨1, "cause", "V"⟩], [⟨0, "smoking", "N"⟩], [⟨2, "cancer", "N"⟩],
            ["pat1"], none⟩,
           ⟨[⟨1, "cause", "V"⟩], [⟨0, "smoking", "N"⟩], [⟨2, "cancer", "N"⟩],
            ["pat2"], none⟩] : List PossibleCausation).countP
          (fun pc => decide (pcTuple pc
            = ([⟨1, "cause", "V"⟩], ⟨0, "smoking", "N"⟩, ⟨2, "cancer", "N"⟩))))
        1 :=
  (tregex_dedup_cross_match _ (by decide)).1 _

theorem dedupGroups_of_nodup_keys {l : List PossibleCausation}
    (h : (l.map pcTuple).Nodup) :
    dedupGroups l = l.map (fun pc => (pcTuple pc, pc)) := by
  induction l using List.reverseRecOn with
  | nil => rfl
  | append_singleton l pc ih =>
    rw [List.map_append] at h
    obtain ⟨h1, _, hdisj⟩ := List.nodup_append.mp h
    have hnotin : pcTuple pc ∉ l.map pcTuple := fun hmem =>
      hdisj hmem (by simp)
    rw [dedupGroups_append, ih h1]
    have hfind : (l.map (fun q => (pcTuple q, q))).find?
        (fun e => decide (e.1 = pcTuple pc)) = none := by
      rw [List.find?_map]
      rw [List.find?_eq_none.mpr (fun q hq => by
        simp only [Function.comp, decide_eq_true_eq]
        intro hqk
        exact hnotin (hqk ▸ List.mem_map_of_mem pcTuple hq))]
      rfl
    simp only [dedupInsert, hfind, List.map_append]
    simp

theorem dedup_keys_nodup (l : List PossibleCausation) :
    ((__deduplicate l).map pcTuple).Nodup := by
  have hperm : List.Perm ((__deduplicate l).map pcTuple)
      (((firstKeys l).map (fun k => groupValue l k)).map pcTuple) :=
    (dedup_perm_groupValues l).map pcTuple
  have heq : ((firstKeys l).map (fun k => groupValue l k)).map pcTuple
      = firstKeys l := by
    rw [List.map_map]
    calc (firstKeys l).map (pcTuple ∘ fun k => groupValue l k)
        = (firstKeys l).map id :=
          List.map_congr_left (fun k hk => groupValue_key hk)
      _ = firstKeys l := List.map_id _
  rw [hperm.nodup_iff, heq]
  exact nodup_firstKeys l

/-- Claim C6: cross-match deduplication is idempotent — applying
`__deduplicate` to one of its own outputs returns that output unchanged
(the output has pairwise-distinct causation keys, so no group merges, and it
is already sorted, so the stable sort fixes it). -/
theorem dedup_idempotent (l : List PossibleCausation) :
    __deduplicate (__deduplicate l) = __deduplicate l := by
  have hnd : ((__deduplicate l).map pcTuple).Nodup := dedup_keys_nodup l
  have hsorted : (__deduplicate l).Pairwise
      (fun a b => pcStartIndex a ≤ pcStartIndex b) := by
    unfold __deduplicate
    exact pairwise_insertionSortByKey _ _
  show insertionSortByKey pcStartIndex
      ((dedupGroups (__deduplicate l)).map (·.2)) = __deduplicate l
  rw [dedupGroups_of_nodup_keys hnd, List.map_map]
  rw [show ((fun e : CausationKey × PossibleCausation => e.2)
        ∘ (fun pc => (pcTuple pc, pc))) = id from rfl, List.map_id]
  exact insertionSortByKey_of_sorted pcStartIndex hsorted

theorem contains_none_of_mem {l : List (Option String)} (h : none ∈ l) :
    l.contains none = true := by
  induction l with
  | nil => simp at h
  | cons x xs ih =>
    rw [List.contains_cons]
    rcases List.mem_cons.mp h with h' | h'
    · rw [← h']
      simp
    · rw [ih h']
      simp

/-- Claim C7: an incomplete final batch of matcher output (padded with missing
entries by `igroup`) is discarded — processing the whole line list gives the
same result as processing only the complete batches, so the malformed batch
yields no candidate, earlier and later parsing is unaffected, and the run is
not aborted by the incomplete batch. -/
theorem malformed_batch_discarded (pattern : String)
    (connective_labels connective_lemmas : List String) (sentence : Sentence)
    (lines : List String)
    (h : lines.length % (2 + connective_labels.length) ≠ 0) :
    _process_tregex_for_sentence pattern connective_labels connective_lemmas
        sentence lines
      = _process_tregex_for_sentence pattern connective_labels
          connective_lemmas sentence
          (lines.take ((2 + connective_labels.length)
            * (lines.length / (2 + connective_labels.length)))) := by
  have hn : 0 < 2 + connective_labels.length := by omega
  simp only [_process_tregex_for_sentence, igroup]
  set n := 2 + connective_labels.length with hN
  set q := lines.length / n with hq
  set r := lines.length % n with hr
  have hdm : n * q + r = lines.length := Nat.div_add_mod lines.length n
  have hr1 : 1 ≤ r := by omega
  have hrn : r < n := Nat.mod_lt _ hn
  have hlen_take : (lines.take (n * q)).length = n * q := by
    rw [List.length_take]
    omega
  have hcount1 : (lines.length + n - 1) / n = q + 1 := by
    have hexp : n * (q + 1) = n * q + n := by ring
    have h1 : lines.length + n - 1 = n * (q + 1) + (r - 1) := by omega
    rw [h1, Nat.mul_add_div hn, Nat.div_eq_of_lt (by omega)]
  have hcount2 : ((lines.take (n * q)).length + n - 1) / n = q := by
    rw [hlen_take]
    have h1 : n * q + n - 1 = n * q + (n - 1) := by omega
    rw [h1, Nat.mul_add_div hn, Nat.div_eq_of_lt (by omega)]
    rfl
  rw [hcount1, hcount2]
  rw [List.range_succ, List.map_append, List.map_cons, List.map_nil]
  have hbatches : (List.range q).map (fun i =>
        (List.range n).map (fun j => lines[i * n + j]?))
      = (List.range q).map (fun i =>
        (List.range n).map (fun j => (lines.take (n * q))[i * n + j]?)) := by
    apply List.map_congr_left
    intro i hi
    apply List.map_congr_left
    intro j hj
    have hi' : i < q := List.mem_range.mp hi
    have hj' : j < n := List.mem_range.mp hj
    rw [List.getElem?_take_of_lt]
    calc i * n + j < i * n + n := by omega
      _ = (i + 1) * n := by ring
      _ ≤ q * n := Nat.mul_le_mul_right n hi'
      _ = n * q := Nat.mul_comm q n
  rw [hbatches, List.foldlM_append]
  have hnone : ((List.range n).map (fun j => lines[q * n + j]?)).contains none
      = true := by
    apply contains_none_of_mem
    apply List.mem_map.mpr
    refine ⟨n - 1, List.mem_range.mpr (by omega), ?_⟩
    apply List.getElem?_eq_none
    have hcomm : q * n = n * q := Nat.mul_comm q n
    omega
  cases hfold : ((List.range q).map (fun i =>
      (List.range n).map (fun j => (lines.take (n * q))[i * n + j]?))).foldlM
        (processMatchBatch pattern connective_lemmas sentence.tokens
          (true_connectives sentence.causation_instances)) [] with
  | error e => rfl
  | ok acc =>
      have hstep : processMatchBatch pattern connective_lemmas sentence.tokens
          (true_connectives sentence.causation_instances) acc
          ((List.range n).map (fun j => lines[q * n + j]?)) = .ok acc := by
        unfold processMatchBatch
        rw [if_pos hnone]
      show List.foldlM _ acc _ = Except.ok acc
      rw [List.foldlM_cons, hstep]
      rfl

/-- Witness for C7: four parseable output lines with batch size 3 (one
connective label) — the final, incomplete batch is discarded and processing
equals processing of the three complete-batch lines alone. -/
theorem malformed_batch_discarded_witness :
    _process_tregex_for_sentence "p" ["connective_0"] ["because"]
        ⟨[⟨0, "smoking", "N"⟩], "", [], []⟩ ["a_0", "b_0", "c_0", "d_0"]
      = _process_tregex_for_sentence "p" ["connective_0"] ["because"]
          ⟨[⟨0, "smoking", "N"⟩], "", [], []⟩
          (["a_0", "b_0", "c_0", "d_0"].take ((2 + ["connective_0"].length)
            * (["a_0", "b_0", "c_0", "d_0"].length
                / (2 + ["connective_0"].length)))) :=
  malformed_batch_discarded "p" ["connective_0"] ["because"]
    ⟨[⟨0, "smoking", "N"⟩], "", [], []⟩ ["a_0", "b_0", "c_0", "d_0"]
    (by decide)

theorem range_map_getElem_eq_take (l : List String) : ∀ n, n ≤ l.length →
    (List.range n).map (fun j => l[j]?) = (l.take n).map some := by
  intro n
  induction n with
  | zero => intro _; rfl
  | succ m ih =>
    intro h
    rw [List.range_succ, List.map_append, ih (by omega), List.take_succ,
        List.map_append]
    congr 1
    have hv : ∃ v, l[m]? = some v := by
      rw [List.getElem?_eq_getElem (by omega)]
      exact ⟨_, rfl⟩
    obtain ⟨v, hv⟩ := hv
    simp [hv]

theorem contains_none_map_some (xs : List String) :
    ((xs.map some).contains none) = false := by
  induction xs with
  | nil => rfl
  | cons x xs ih => simp [List.contains_cons, ih]

theorem filterMap_id_map_some (xs : List String) :
    (xs.map some).filterMap id = xs := by
  induction xs with
  | nil => rfl
  | cons x xs ih => simp [ih]

/-- Claim C9: a dependency-mode output line is parsed by interpreting the text
after its last underscore as a decimal integer index into the sentence's
token list; a non-integer trailing segment raises `ValueError` and an
out-of-range index raises `IndexError`, and such an exception propagates out
of the match-parsing loop (which only discards batches with missing lines,
never lines with unparseable token references): the whole per-sentence parse
returns that error instead of a candidate list. -/
theorem token_parse_errors_uncaught (pattern : String)
    (connective_labels connective_lemmas : List String) (sentence : Sentence)
    (lines : List String) (line : String) (i : Int) :
    (pythonInt (lastSegmentAfterUnderscore line) = none →
      _get_dependency_token_from_tregex_line line sentence.tokens
        = .error (.valueError (lastSegmentAfterUnderscore line)))
    ∧ (pythonInt (lastSegmentAfterUnderscore line) = some i →
        pythonListGet sentence.tokens i = none →
      _get_dependency_token_from_tregex_line line sentence.tokens
        = .error (.indexError i))
    ∧ (∀ e : TregexParseErr, 2 + connective_labels.length ≤ lines.length →
        _get_dependency_token_from_tregex_line (lines.headD "")
            sentence.tokens = .error e →
        _process_tregex_for_sentence pattern connective_labels
            connective_lemmas sentence lines = .error e) := by
  refine ⟨?_, ?_, ?_⟩
  · intro h
    unfold _get_dependency_token_from_tregex_line
    simp only [h]
  · intro h1 h2
    unfold _get_dependency_token_from_tregex_line
    simp only [h1, h2]
  · intro e hlen hbad
    obtain ⟨a, b, rest, rfl⟩ : ∃ a b rest, lines = a :: b :: rest := by
      cases lines with
      | nil =>
        exact absurd hlen
          (by simp only [List.length_nil]; omega)
      | cons a t =>
        cases t with
        | nil =>
          exact absurd hlen
            (by simp only [List.length_cons, List.length_nil]; omega)
        | cons b rest => exact ⟨a, b, rest, rfl⟩
    simp only [List.headD_cons] at hbad
    simp only [_process_tregex_for_sentence, igroup]
    have hn : 0 < 2 + connective_labels.length := by omega
    set n := 2 + connective_labels.length with hN
    set l : List String := a :: b :: rest with hl
    have hcpos : 0 < (l.length + n - 1) / n :=
      Nat.div_pos (by omega) (by omega)
    obtain ⟨c, hc⟩ :=
      Nat.exists_eq_succ_of_ne_zero (Nat.pos_iff_ne_zero.mp hcpos)
    rw [hc, List.range_succ_eq_map, List.map_cons, List.foldlM_cons]
    have hb0 : (List.range n).map (fun j => l[0 * n + j]?)
        = (l.take n).map some := by
      simp only [Nat.zero_mul, Nat.zero_add]
      exact range_map_getElem_eq_take l n hlen
    rw [hb0]
    have hbatch : processMatchBatch pattern connective_lemmas sentence.tokens
        (true_connectives sentence.causation_instances) []
        ((l.take n).map some) = .error e := by
      unfold processMatchBatch
      rw [if_neg (by rw [contains_none_map_some]; simp)]
      have htake : (l.take n).take 2 = l.take 2 := by
        rw [List.take_take]
        congr 1
        omega
      simp only [filterMap_id_map_some, htake,
        show l.take 2 = [a, b] from rfl]
      rw [List.mapM_cons, hbad]
      rfl
    rw [hbatch]
    rfl

/-- Witness for C9: the line `"x_z"` has the non-integer trailing segment
`"z"`, so parsing it raises `ValueError`, and with three lines against one
connective label (batch size 3, one complete batch) the whole per-sentence
parse aborts with that error rather than discarding the batch. -/
theorem token_parse_errors_uncaught_witness :
    _get_dependency_token_from_tregex_line "x_z"
        (Sentence.tokens ⟨[⟨0, "smoking", "N"⟩], "", [], []⟩)
      = .error (.valueError "z")
    ∧ _process_tregex_for_sentence "p" ["connective_0"] ["because"]
        ⟨[⟨0, "smoking", "N"⟩], "", [], []⟩ ["x_z", "a_0", "b_0"]
      = .error (.valueError "z") := by
  have h := token_parse_errors_uncaught "p" ["connective_0"] ["because"]
    ⟨[⟨0, "smoking", "N"⟩], "", [], []⟩ ["x_z", "a_0", "b_0"] "x_z" 0
  refine ⟨h.1 (by decide), h.2.2 (.valueError "z") (by decide) ?_⟩
  exact h.1 (by decide)

theorem foldl_length_invariant {α : Type}
    (f : List (List PossibleCausation) → α → List (List PossibleCausation))
    (hf : ∀ outs a, (f outs a).length = outs.length) :
    ∀ (l : List α) (outs : List (List PossibleCausation)),
      (l.foldl f outs).length = outs.length := by
  intro l
  induction l with
  | nil => intro outs; rfl
  | cons x xs ih =>
    intro outs
    rw [List.foldl_cons, ih, hf]

theorem modelTest_length (produce : String → Nat → List PossibleCausation)
    (tregex_patterns : List TregexPattern) (sentences : List Sentence) :
    (modelTest produce tregex_patterns sentences).length
      = sentences.length := by
  unfold modelTest
  have h := foldl_length_invariant
    (fun predicted_outputs p =>
      (_filter_sentences_for_pattern sentences p.1 p.2.2).foldl
        (fun outs i => outs.set i ((outs.getD i []) ++ produce p.1 i))
        predicted_outputs)
    (fun outs p => foldl_length_invariant _
      (fun o i => List.length_set o i _) _ outs)
    tregex_patterns (List.replicate sentences.length [])
  rw [h, List.length_replicate]

theorem map_pc_zip (f : List PossibleCausation → List PossibleCausation) :
    ∀ (a : List Sentence) (b : List (List PossibleCausation)),
      a.length = b.length →
      ((a.zip b).map (fun sp =>
          { sp.1 with possible_causations := f sp.2 })).map
        (fun s => s.possible_causations)
        = b.map f := by
  intro a
  induction a with
  | nil =>
    intro b h
    cases b with
    | nil => rfl
    | cons o os => simp at h
  | cons s ss ih =>
    intro b h
    cases b with
    | nil => simp at h
    | cons o os =>
      simp only [List.zip_cons_cons, List.map_cons]
      rw [ih os (by simpa using h)]

/-- Claim C10: preprocessing gives every input sentence a fresh empty
`possible_causations` list; the model allocates exactly one output list per
input sentence; after the workers finish, `_test_documents` replaces each
sentence's `possible_causations` with the deduplicated output list for that
sentence — so the final lists depend only on the current run (never on
candidates a previous run left on the sentences), and one final list exists
per input sentence. -/
theorem stage_output_fresh (produce : String → Nat → List PossibleCausation)
    (tregex_patterns : List TregexPattern) (sentences : List Sentence) :
    ((_preprocess_sentences sentences).1).all
        (fun s => s.possible_causations.isEmpty) = true
    ∧ (modelTest produce tregex_patterns
        (_preprocess_sentences sentences).1).length = sentences.length
    ∧ (_test_documents produce tregex_patterns sentences).length
        = sentences.length
    ∧ (_test_documents produce tregex_patterns sentences).map
          (fun s => s.possible_causations)
        = (modelTest produce tregex_patterns
            (_preprocess_sentences sentences).1).map __deduplicate
    ∧ ∀ sentences' : List Sentence,
        sentences'.map clearPC = sentences.map clearPC →
        (_test_documents produce tregex_patterns sentences').map
            (fun s => s.possible_causations)
          = (_test_documents produce tregex_patterns sentences).map
              (fun s => s.possible_causations) := by
  have hplen : (_preprocess_sentences sentences).1.length = sentences.length := by
    simp [_preprocess_sentences]
  refine ⟨?_, ?_, ?_, ?_, ?_⟩
  · simp [_preprocess_sentences, List.all_eq_true]
  · rw [modelTest_length, hplen]
  · unfold _test_documents
    rw [List.length_map, List.length_zip, hplen, modelTest_length, hplen]
    simp
  · unfold _test_documents
    exact map_pc_zip __deduplicate _ _
      (by rw [hplen, modelTest_length, hplen])
  · intro sentences' h
    have hpre : (_preprocess_sentences sentences').1
        = (_preprocess_sentences sentences).1 := h
    unfold _test_documents
    rw [hpre]

/-- Witness for C10: a sentence carrying a stale candidate from an earlier run
yields exactly the same final `possible_causations` as the same sentence
without it — the stale candidate never survives the stage. -/
theorem stage_output_fresh_witness :
    (_test_documents (fun _ _ => []) []
        [⟨[], "(ROOT)", [],
          [⟨[⟨0, "stale", "N"⟩], [], [], ["old_pattern"], none⟩]⟩]).map
      (fun s => s.possible_causations)
      = (_test_documents (fun _ _ => []) []
          [⟨[], "(ROOT)", [], []⟩]).map (fun s => s.possible_causations) :=
  (stage_output_fresh (fun _ _ => []) [] [⟨[], "(ROOT)", [], []⟩]).2.2.2.2
    [⟨[], "(ROOT)", [],
      [⟨[⟨0, "stale", "N"⟩], [], [], ["old_pattern"], none⟩]⟩]
    (by decide)

end Causeway
